import Mathlib

/-!
# Verification of the exactextract Python orchestration layer

This file is a shallow embedding, in Lean 4, of the pure logic of the
`exactextract` Python package's extraction-orchestration layer
(`exact_extract.py`, `writer.py`, `raster.py`, `feature.py`).  Python
functions are translated into executable Lean functions; Python
exceptions become `Except String`; Python `None` becomes `Option`.

The native `_exactextract` extension module (the C++ compute engine and
its helpers `prepare_operations`, `Operation.weighted`,
`Operation.requires_variance`) is not part of the reviewed Python
sources; where its behaviour decides a property it is modelled from the
specification, and each such definition is marked
`Modelled from the spec:` in its doc comment.

Backend libraries (GDAL, rasterio, xarray, fiona, geopandas, QGIS,
osr/pyproj) are external collaborators; their observable behaviour is
abstracted into explicit environment parameters.
-/

namespace ExactExtract

/-- One band of raster data, as exposed through the `RasterSource`
abstraction (`raster.py`).  Only the attributes the orchestration layer
itself consults are modelled: the `name` used for output-field
derivation and the optional spatial-reference WKT string returned by
`srs_wkt()`. -/
structure RSource where
  name : String
  srs : Option String := none
  deriving Repr, DecidableEq

instance : Inhabited RSource := ⟨⟨"", none⟩⟩

/-- Model of `make_raster_names` from `exact_extract.py` (lines 28-38).  The
Python `root` parameter may be `None` or a string; `if root:` is false
exactly when `root` is `None` or the empty string, which we model by
testing `root.getD "" = ""`. -/
def make_raster_names (root : Option String) (nbands : Nat) : List String :=
  if (root.getD "") ≠ "" then
    if nbands > 1 then
      (List.range nbands).map (fun i => (root.getD "") ++ "_band_" ++ toString (i + 1))
    else
      [root.getD ""]
  else
    if nbands > 1 then
      (List.range nbands).map (fun i => "band_" ++ toString (i + 1))
    else
      [""]

/-- Model of `NumPyRasterSource.__init__` (`raster.py`, lines 119-160), reduced to
the data it derives: the constructor asserts that the four extent
coordinates are all supplied or all omitted
(`assert (xmin is None) == (ymin is None) == (xmax is None) == (ymax is None)`,
a chained comparison of the four `None`-ness booleans), and computes the
extent, defaulting to `(0, 0, ncols, nrows)` of the backing 2D array
(`mat.shape = (nrows, ncols)`).  Python numeric coordinates are modelled
as integers, which suffices for the constructor logic (no arithmetic is
performed on them here).  An assertion failure is modelled as
`.error "AssertionError"`. -/
def numpy_raster_source_init (nrows ncols : Nat)
    (xmin ymin xmax ymax : Option Int) :
    Except String (Int × Int × Int × Int) :=
  if (xmin.isNone = ymin.isNone ∧ ymin.isNone = xmax.isNone ∧
      xmax.isNone = ymax.isNone) then
    match xmin, ymin, xmax, ymax with
    | some a, some b, some c, some d => .ok (a, b, c, d)
    | _, _, _, _ => .ok (0, 0, (ncols : Int), (nrows : Int))
  else
    .error "AssertionError"

/-- C2: for every optional root and `nbands ≥ 1`, `make_raster_names`
returns exactly `nbands` names: with a non-empty root and `nbands > 1`
the `i`-th name is `root ++ "_band_" ++ (i+1)`; with a non-empty root
and `nbands = 1`, the single name is the root; with no root the names
are `"band_" ++ (i+1)` when `nbands > 1` and `""` when `nbands = 1`. -/
theorem make_raster_names_spec (root : Option String) (nbands : Nat)
    (h : 1 ≤ nbands) :
    (make_raster_names root nbands).length = nbands ∧
    ((root.getD "" ≠ "" ∧ nbands > 1) →
      ∀ i, i < nbands → (make_raster_names root nbands)[i]? =
        some (root.getD "" ++ "_band_" ++ toString (i + 1))) ∧
    ((root.getD "" ≠ "" ∧ nbands = 1) →
      make_raster_names root nbands = [root.getD ""]) ∧
    ((root.getD "" = "" ∧ nbands > 1) →
      ∀ i, i < nbands → (make_raster_names root nbands)[i]? =
        some ("band_" ++ toString (i + 1))) ∧
    ((root.getD "" = "" ∧ nbands = 1) →
      make_raster_names root nbands = [""]) := by
  refine ⟨?_, ?_, ?_, ?_, ?_⟩
  · by_cases hr : root.getD "" = "" <;> by_cases hn : nbands > 1 <;>
      simp [make_raster_names, hr, hn] <;> omega
  · rintro ⟨hr, hn⟩ i hi
    simp [make_raster_names, hr, hn, hi]
  · rintro ⟨hr, hn⟩
    subst hn
    simp [make_raster_names, hr]
  · rintro ⟨hr, hn⟩ i hi
    simp [make_raster_names, hr, hn, hi]
  · rintro ⟨hr, hn⟩
    subst hn
    simp [make_raster_names, hr]

/-- Witness for C2 at root `"dem"`, `nbands = 2` and root `none`,
`nbands = 1`. -/
theorem make_raster_names_spec_witness :
    (1 ≤ 2 ∧ make_raster_names (some "dem") 2 = ["dem_band_1", "dem_band_2"]) ∧
    (1 ≤ 1 ∧ make_raster_names none 1 = [""]) := by
  have h2 := make_raster_names_spec (some "dem") 2 (by decide)
  have h1 := make_raster_names_spec none 1 (by decide)
  refine ⟨⟨by decide, ?_⟩, ⟨by decide, ?_⟩⟩
  · have ha := h2.2.1 ⟨by decide, by decide⟩ 0 (by decide)
    have hb := h2.2.1 ⟨by decide, by decide⟩ 1 (by decide)
    have hl := h2.1
    have : make_raster_names (some "dem") 2 =
        ["dem_band_1", "dem_band_2"] := by
      apply List.ext_getElem?
      intro i
      match i with
      | 0 => simpa using ha
      | 1 => simpa using hb
      | n + 2 => simp [List.getElem?_eq_none, hl]
    exact this
  · exact h1.2.2.2.2 ⟨by decide, rfl⟩

/-- C9: the NumPy raster-source constructor succeeds exactly when the
four extent coordinates are all supplied or all omitted, and when all
are omitted the extent defaults to `(0, 0, ncols, nrows)`. -/
theorem numpy_raster_source_init_spec (nrows ncols : Nat)
    (xmin ymin xmax ymax : Option Int) :
    ((∃ e, numpy_raster_source_init nrows ncols xmin ymin xmax ymax = .ok e) ↔
      ((xmin = none ∧ ymin = none ∧ xmax = none ∧ ymax = none) ∨
       (xmin.isSome ∧ ymin.isSome ∧ xmax.isSome ∧ ymax.isSome))) ∧
    (xmin = none → ymin = none → xmax = none → ymax = none →
      numpy_raster_source_init nrows ncols xmin ymin xmax ymax =
        .ok (0, 0, (ncols : Int), (nrows : Int))) := by
  constructor
  · constructor
    · rintro ⟨e, he⟩
      cases xmin <;> cases ymin <;> cases xmax <;> cases ymax <;>
        simp_all [numpy_raster_source_init]
    · rintro (⟨h1, h2, h3, h4⟩ | ⟨h1, h2, h3, h4⟩)
      · subst h1; subst h2; subst h3; subst h4
        exact ⟨_, rfl⟩
      · cases xmin <;> cases ymin <;> cases xmax <;> cases ymax <;>
          first
          | exact ⟨_, rfl⟩
          | simp_all [numpy_raster_source_init]
  · rintro rfl rfl rfl rfl
    rfl

/-- Witness for C9: mixed `None`-ness fails the assertion, all-`None`
defaults the extent to `(0, 0, ncols, nrows)`. -/
theorem numpy_raster_source_init_spec_witness :
    numpy_raster_source_init 3 4 none none none none = .ok (0, 0, 4, 3) ∧
    ¬ ∃ e, numpy_raster_source_init 3 4 (some 0) none none none = .ok e := by
  constructor
  · exact (numpy_raster_source_init_spec 3 4 none none none none).2
      rfl rfl rfl rfl
  · intro he
    have h := ((numpy_raster_source_init_spec 3 4
      (some 0) none none none).1).mp he
    simp at h

/-- A summary operation, as assembled by the operation builder: the stat
keyword, the derived output field name, the value source, the optional
weight source, and the "weighted" classification (for built-in stats,
whether the stat keyword is a weighted statistic; for Python-callback
operations, whether the callback takes three arguments). -/
structure Op where
  stat : String
  name : String
  values : RSource
  weights : Option RSource
  weighted : Bool
  deriving Repr, DecidableEq

/-- Model of `crs_matches` from `exact_extract.py` (lines 298-337).  Two WKT
strings match when either is `None`, or they are textually equal, or the
installed backend (osr, else pyproj; `False` when neither is installed)
judges them semantically equal.  The backend comparison is an external
collaborator and is abstracted as the parameter `sem`; the
`functools.cache` memoisation does not change the computed value. -/
def crs_matches (sem : String → String → Bool) :
    Option String → Option String → Bool
  | none, _ => true
  | _, none => true
  | some a, some b => if a = b then true else sem a b

/-- The body of the loop of `warn_on_crs_mismatch` (`exact_extract.py`,
lines 340-361): iterate over the operations carrying the two category
flags (`check_rast_vec`, `check_rast_weights`), emitting the tag
`"value"` (the "features vs. value raster" warning) or `"weight"` (the
"features vs. weight raster" warning) and clearing the corresponding
flag on the first mismatch of each category. -/
def warn_on_crs_mismatch_aux (sem : String → String → Bool)
    (vecSrs : Option String) :
    List Op → Bool → Bool → List String
  | [], _, _ => []
  | op :: rest, checkVec, checkWeights =>
    let mismatchVec := checkVec && ! crs_matches sem vecSrs op.values.srs
    let mismatchW := checkWeights &&
      (match op.weights with
       | some w => ! crs_matches sem vecSrs w.srs
       | none => false)
    (if mismatchVec then ["value"] else []) ++
      (if mismatchW then ["weight"] else []) ++
      warn_on_crs_mismatch_aux sem vecSrs rest
        (checkVec && ! mismatchVec) (checkWeights && ! mismatchW)

/-- Model of `warn_on_crs_mismatch`: both category flags start `True`. -/
def warn_on_crs_mismatch (sem : String → String → Bool)
    (vecSrs : Option String) (ops : List Op) : List String :=
  warn_on_crs_mismatch_aux sem vecSrs ops true true

theorem crs_matches_none_left (sem : String → String → Bool)
    (b : Option String) : crs_matches sem none b = true := by
  cases b <;> rfl

theorem crs_matches_none_right (sem : String → String → Bool)
    (a : Option String) : crs_matches sem a none = true := by
  cases a <;> rfl

theorem warn_aux_value_count (sem : String → String → Bool)
    (vecSrs : Option String) (ops : List Op) (cv cw : Bool) :
    (warn_on_crs_mismatch_aux sem vecSrs ops cv cw).count "value" ≤
      (if cv then 1 else 0) := by
  induction ops generalizing cv cw with
  | nil => simp [warn_on_crs_mismatch_aux]
  | cons op rest ih =>
    simp only [warn_on_crs_mismatch_aux]
    generalize (! crs_matches sem vecSrs op.values.srs) = pv
    generalize (match op.weights with
      | some w => ! crs_matches sem vecSrs w.srs
      | none => false) = pw
    cases hmv : cv && pv with
    | true =>
      have hcv : cv = true := by cases cv <;> simp_all
      have h := ih false (cw && ! (cw && pw))
      cases hmw : cw && pw <;>
        simp_all [List.count_append, List.count_cons]
    | false =>
      have h := ih cv (cw && ! (cw && pw))
      cases hmw : cw && pw <;>
        simp_all [List.count_append, List.count_cons]

theorem warn_aux_weight_count (sem : String → String → Bool)
    (vecSrs : Option String) (ops : List Op) (cv cw : Bool) :
    (warn_on_crs_mismatch_aux sem vecSrs ops cv cw).count "weight" ≤
      (if cw then 1 else 0) := by
  induction ops generalizing cv cw with
  | nil => simp [warn_on_crs_mismatch_aux]
  | cons op rest ih =>
    simp only [warn_on_crs_mismatch_aux]
    generalize (! crs_matches sem vecSrs op.values.srs) = pv
    generalize (match op.weights with
      | some w => ! crs_matches sem vecSrs w.srs
      | none => false) = pw
    cases hmw : cw && pw with
    | true =>
      have hcw : cw = true := by cases cw <;> simp_all
      have h := ih (cv && ! (cv && pv)) false
      cases hmv : cv && pv <;>
        simp_all [List.count_append, List.count_cons]
    | false =>
      have h := ih (cv && ! (cv && pv)) cw
      cases hmv : cv && pv <;>
        simp_all [List.count_append, List.count_cons]

theorem warn_aux_all_match (sem : String → String → Bool)
    (vecSrs : Option String) (ops : List Op) (cv cw : Bool)
    (h : ∀ op ∈ ops, crs_matches sem vecSrs op.values.srs = true ∧
      (∀ w, op.weights = some w → crs_matches sem vecSrs w.srs = true)) :
    warn_on_crs_mismatch_aux sem vecSrs ops cv cw = [] := by
  induction ops generalizing cv cw with
  | nil => simp [warn_on_crs_mismatch_aux]
  | cons op rest ih =>
    have hop := h op (by simp)
    have hrest : ∀ op ∈ rest, crs_matches sem vecSrs op.values.srs = true ∧
        (∀ w, op.weights = some w → crs_matches sem vecSrs w.srs = true) :=
      fun o ho => h o (by simp [ho])
    simp only [warn_on_crs_mismatch_aux]
    have hv : (! crs_matches sem vecSrs op.values.srs) = false := by
      simp [hop.1]
    have hw : (match op.weights with
        | some w => ! crs_matches sem vecSrs w.srs
        | none => false) = false := by
      cases hws : op.weights with
      | none => rfl
      | some w => simp [hop.2 w hws]
    rw [hv, hw]
    simp only [Bool.and_false, if_neg Bool.false_ne_true, List.nil_append]
    exact ih _ _ hrest


/-- C3: one call to `warn_on_crs_mismatch` emits at most one
"features vs. value raster" warning and at most one
"features vs. weight raster" warning, however many operations share the
mismatched pair; it emits no warning at all when the feature source's
spatial reference is undefined, and likewise when every compared
raster's spatial reference is undefined, because `crs_matches` treats an
undefined reference as matching. -/
theorem warn_on_crs_mismatch_spec (sem : String → String → Bool)
    (vecSrs : Option String) (ops : List Op) :
    (warn_on_crs_mismatch sem vecSrs ops).count "value" ≤ 1 ∧
    (warn_on_crs_mismatch sem vecSrs ops).count "weight" ≤ 1 ∧
    (vecSrs = none → warn_on_crs_mismatch sem vecSrs ops = []) ∧
    ((∀ op ∈ ops, op.values.srs = none ∧
        (∀ w, op.weights = some w → w.srs = none)) →
      warn_on_crs_mismatch sem vecSrs ops = []) := by
  refine ⟨?_, ?_, ?_, ?_⟩
  · simpa using warn_aux_value_count sem vecSrs ops true true
  · simpa using warn_aux_weight_count sem vecSrs ops true true
  · intro hvec
    subst hvec
    exact warn_aux_all_match sem none ops true true
      (fun op _ => ⟨crs_matches_none_left sem _,
        fun w _ => crs_matches_none_left sem _⟩)
  · intro hall
    refine warn_aux_all_match sem vecSrs ops true true (fun op hop => ?_)
    obtain ⟨h1, h2⟩ := hall op hop
    refine ⟨?_, fun w hw => ?_⟩
    · rw [h1]; exact crs_matches_none_right sem _
    · rw [h2 w hw]; exact crs_matches_none_right sem _

/-- Witness for C3: two operations sharing the same mismatched pair
(a comparator that never matches) yield exactly one warning per
category, and an undefined feature reference yields none. -/
theorem warn_on_crs_mismatch_spec_witness :
    (warn_on_crs_mismatch (fun _ _ => false) (some "A")
        [⟨"mean", "mean", ⟨"a", some "B"⟩, some ⟨"w", some "B"⟩, false⟩,
         ⟨"sum", "sum", ⟨"a", some "B"⟩, some ⟨"w", some "B"⟩, false⟩]).count
      "value" ≤ 1 ∧
    warn_on_crs_mismatch (fun _ _ => false) none
      [⟨"mean", "mean", ⟨"a", some "B"⟩, none, false⟩] = [] := by
  constructor
  · exact (warn_on_crs_mismatch_spec (fun _ _ => false) (some "A") _).1
  · exact ((warn_on_crs_mismatch_spec (fun _ _ => false) none _).2.2.1) rfl

/-- A property value of a GeoJSON-like feature.  Scalar values are what
the orchestration layer moves around untouched; `null` is Python's
`None`, the absent-value sentinel of the Writers. -/
inductive JVal where
  | null
  | int (n : Int)
  | str (s : String)
  | boolV (b : Bool)
  deriving Repr, DecidableEq

/-- A GeoJSON-like feature as managed by `JSONFeature` (`feature.py`,
lines 151-196): an optional `id`, an optional geometry (opaque here) and
an ordered mapping of named properties (Python dicts preserve insertion
order).  `Feature.copy_to` into a fresh `JSONFeature` reproduces exactly
this data, so it is the identity on this representation. -/
structure JFeature where
  id : Option JVal := none
  geometry : Option JVal := none
  props : List (String × JVal)
  deriving Repr, DecidableEq

/-- Ordered-dict assignment `d[k] = v`: replaces in place when the key
exists, appends otherwise. -/
def dict_set {α : Type} (d : List (String × α)) (k : String) (v : α) :
    List (String × α) :=
  if (d.lookup k).isSome then
    d.map (fun p => if p.1 = k then (k, v) else p)
  else
    d ++ [(k, v)]

/-- The state of `PandasWriter` (`writer.py`, lines 118-165): the
ordered mapping `self.fields` from column name to the accumulated
column.  (`self.geoms` is assigned in `__init__` and never used;
`self.srs_wkt` does not affect `write`.) -/
structure PandasWriter where
  fields : List (String × List JVal)
  deriving Repr, DecidableEq

/-- Model of `PandasWriter.add_operation`: `self.fields[op.name] = []`. -/
def pandas_add_operation (w : PandasWriter) (op : Op) : PandasWriter :=
  ⟨dict_set w.fields op.name []⟩

/-- Model of `PandasWriter.add_column`: `self.fields[col_name] = []`. -/
def pandas_add_column (w : PandasWriter) (col : String) : PandasWriter :=
  ⟨dict_set w.fields col []⟩

/-- The cell appended to a declared column by one `PandasWriter.write`
call: the geometry for the `"geometry"` column when the feature has one
(the `shapely.geometry.shape` conversion is modelled as the identity on
the opaque geometry value), the feature's `id` for the `"id"` column
when present, the record's value when the record supplies the field, and
`None` otherwise. -/
def pandas_cell (f : JFeature) (field : String) : JVal :=
  if field = "geometry" ∧ f.geometry.isSome then f.geometry.getD .null
  else if field = "id" ∧ f.id.isSome then f.id.getD .null
  else match f.props.lookup field with
    | some v => v
    | none => .null

/-- Model of `PandasWriter.write` (`writer.py`, lines 137-155): iterates over the
*declared* columns only, appending one cell to each.  Fields of the
incoming record that were never declared are not consulted at all; a
declared field missing from the record gets `None`.  No statement in the
body can raise. -/
def pandas_write (w : PandasWriter) (f : JFeature) : PandasWriter :=
  ⟨w.fields.map (fun p => (p.1, p.2 ++ [pandas_cell f p.1]))⟩

/-- C5 counterexample: an eager `PandasWriter` (columns `id` and
`mean_result` declared before the first write, as in the package's own
`test_pandas_writer`) accepts a record carrying the undeclared field
`"type"`: `write` returns normally — there is no raise — the undeclared
field is absent from the result, and the declared columns each gain one
cell. -/
theorem pandas_write_undeclared_field_accepted :
    pandas_write
      (pandas_add_operation (pandas_add_column ⟨[]⟩ "id")
        ⟨"mean", "mean_result", ⟨"r", none⟩, none, false⟩)
      ⟨some (.int 3), none, [("type", .str "apple"), ("mean_result", .int 9)]⟩ =
      ⟨[("id", [.int 3]), ("mean_result", [.int 9])]⟩ ∧
    ¬ "type" ∈ (pandas_write
      (pandas_add_operation (pandas_add_column ⟨[]⟩ "id")
        ⟨"mean", "mean_result", ⟨"r", none⟩, none, false⟩)
      ⟨some (.int 3), none,
        [("type", .str "apple"), ("mean_result", .int 9)]⟩).fields.map
          Prod.fst := by
  constructor
  · rfl
  · decide

/-- C5 (amended): an eager `PandasWriter` never raises on `write`:
a record containing an undeclared field is accepted, the undeclared
field is silently dropped (the column set after the write is exactly the
declared column set), every declared column grows by exactly one cell,
a declared non-special field supplied by the record contributes its
value, and a declared non-special field missing from the record is
padded with the `None` sentinel. -/
theorem pandas_write_spec (w : PandasWriter) (f : JFeature) :
    (pandas_write w f).fields.map Prod.fst = w.fields.map Prod.fst ∧
    (∀ k, k ∉ w.fields.map Prod.fst →
      k ∉ (pandas_write w f).fields.map Prod.fst) ∧
    (∀ p ∈ w.fields, (p.1, p.2 ++ [pandas_cell f p.1]) ∈
      (pandas_write w f).fields) ∧
    (∀ p ∈ w.fields, p.1 ≠ "geometry" → p.1 ≠ "id" →
      f.props.lookup p.1 = none →
      (p.1, p.2 ++ [.null]) ∈ (pandas_write w f).fields) ∧
    (∀ p ∈ w.fields, ∀ v, p.1 ≠ "geometry" → p.1 ≠ "id" →
      f.props.lookup p.1 = some v →
      (p.1, p.2 ++ [v]) ∈ (pandas_write w f).fields) := by
  refine ⟨?_, ?_, ?_, ?_, ?_⟩
  · simp [pandas_write]
  · intro k hk
    simpa [pandas_write] using hk
  · intro p hp
    simp only [pandas_write]
    exact List.mem_map.mpr ⟨p, hp, rfl⟩
  · intro p hp h1 h2 h3
    have : pandas_cell f p.1 = .null := by
      simp [pandas_cell, h1, h2, h3]
    rw [← this]
    exact List.mem_map.mpr ⟨p, hp, rfl⟩
  · intro p hp v h1 h2 h3
    have : pandas_cell f p.1 = v := by
      simp [pandas_cell, h1, h2, h3]
    rw [← this]
    exact List.mem_map.mpr ⟨p, hp, rfl⟩

/-- Witness for C5 (amended): a record supplying only declared fields is
written with its values, and a missing declared field gets `None`. -/
theorem pandas_write_spec_witness :
    ("mean_result", [JVal.int 9]) ∈
      (pandas_write ⟨[("mean_result", []), ("other", [])]⟩
        ⟨none, none, [("mean_result", .int 9)]⟩).fields ∧
    ("other", [JVal.null]) ∈
      (pandas_write ⟨[("mean_result", []), ("other", [])]⟩
        ⟨none, none, [("mean_result", .int 9)]⟩).fields := by
  have h := pandas_write_spec ⟨[("mean_result", []), ("other", [])]⟩
    ⟨none, none, [("mean_result", .int 9)]⟩
  constructor
  · exact h.2.2.2.2 ("mean_result", []) (by decide) (.int 9)
      (by decide) (by decide) (by decide)
  · exact h.2.2.2.1 ("other", []) (by decide) (by decide) (by decide)
      (by decide)

/-- Python `field.startswith("@delete@")`, used to recognise the removable
marker on injected operations. -/
def marked_temporary (field : String) : Bool :=
  ("@delete@".data).isPrefixOf field.data

/-- The state of `JSONWriter` (`writer.py`, lines 19-115) in its default
configuration (`array_type="numpy"`, `map_fields=None`), under which
`_create_map_fields` and `_convert_arrays` leave the feature unchanged:
the declared operations, the accumulated feature list, and the
`remove_temporary_fields` flag. -/
structure JSONWriter where
  ops : List Op
  feature_list : List JFeature
  remove_temporary_fields : Bool
  deriving Repr, DecidableEq

/-- A freshly constructed default `JSONWriter`: no declared operations,
no features, removal flag off. -/
def json_writer_init : JSONWriter := ⟨[], [], false⟩

/-- Model of `JSONWriter.add_operation`: records the operation and arms the
temporary-field removal when the operation's field name carries the
`@delete@` marker. -/
def json_add_operation (w : JSONWriter) (op : Op) : JSONWriter :=
  { w with
    ops := w.ops ++ [op]
    remove_temporary_fields :=
      w.remove_temporary_fields || marked_temporary op.name }

/-- Model of `JSONWriter.write` (`writer.py`, lines 53-64): copies the feature,
adds `None` for every declared operation name missing from its
properties (in declaration order), removes `@delete@`-marked fields when
armed, and appends the feature to the list. -/
def json_write (w : JSONWriter) (f : JFeature) : JSONWriter :=
  let props1 := w.ops.foldl
    (fun ps op =>
      if (ps.lookup op.name).isSome then ps else ps ++ [(op.name, JVal.null)])
    f.props
  let props2 :=
    if w.remove_temporary_fields then
      props1.filter (fun p => ! marked_temporary p.1)
    else props1
  { w with feature_list := w.feature_list ++ [{ f with props := props2 }] }

/-- Writing a sequence of records. -/
def json_write_all (w : JSONWriter) (recs : List JFeature) : JSONWriter :=
  recs.foldl json_write w

/-- C6 counterexample: a lazy `JSONWriter` (no declarations) fed
`{a: 1}` then `{b: 2}` produces two rows whose property sets are exactly
those of their own records; the field `"b"`, although observed in the
second record, is *absent* from the first row rather than present with
the `None` sentinel, contradicting the claimed cross-record column
union with back-fill. -/
theorem json_write_lazy_no_backfill :
    (json_write_all json_writer_init
      [⟨none, none, [("a", .int 1)]⟩, ⟨none, none, [("b", .int 2)]⟩]
      ).feature_list.map JFeature.props =
      [[("a", .int 1)], [("b", .int 2)]] ∧
    ([[("a", JVal.int 1)], [("b", JVal.int 2)]].head?.getD []).lookup "b" =
      none := by
  constructor
  · rfl
  · rfl

theorem json_write_lazy_step (w : JSONWriter) (f : JFeature)
    (hops : w.ops = []) (hrm : w.remove_temporary_fields = false) :
    json_write w f =
      { w with feature_list := w.feature_list ++ [f] } := by
  simp [json_write, hops, hrm]

/-- C6 (amended): a lazy `JSONWriter` — one that received no
declarations — produces one row per `write` call, and each row carries
exactly the fields its own record supplied: no column observed only in
other records is added to it, and no absent-value back-fill occurs. -/
theorem json_write_all_lazy_spec (recs : List JFeature) :
    (json_write_all json_writer_init recs).feature_list.length =
      recs.length ∧
    (json_write_all json_writer_init recs).feature_list.map JFeature.props =
      recs.map JFeature.props ∧
    (∀ i : Nat, ((json_write_all json_writer_init recs).feature_list[i]?).map
      JFeature.props = (recs[i]?).map JFeature.props) := by
  have key : ∀ (w : JSONWriter), w.ops = [] →
      w.remove_temporary_fields = false →
      json_write_all w recs =
        { w with feature_list := w.feature_list ++ recs } := by
    induction recs with
    | nil => intro w _ _; simp [json_write_all]
    | cons r rest ih =>
      intro w hops hrm
      show json_write_all (json_write w r) rest = _
      rw [json_write_lazy_step w r hops hrm]
      rw [ih { w with feature_list := w.feature_list ++ [r] } hops hrm]
      simp
  have h := key json_writer_init rfl rfl
  rw [json_write_all] at h ⊢
  rw [h]
  refine ⟨by simp [json_writer_init], by simp [json_writer_init], ?_⟩
  intro i
  simp [json_writer_init]

/-- Python `os.path.basename` for POSIX paths: the part after the last `/`. -/
def basename_chars (p : List Char) : List Char :=
  ((p.reverse.takeWhile (fun c => c ≠ '/')).reverse)

/-- The root part of `os.path.splitext` on a bare file name (CPython
`genericpath._splitext` with no directory separator present): split at
the last `.` provided at least one earlier character of the name is not
a `.` (so purely-leading dots, as in `.bashrc`, yield no extension). -/
def splitext_root (name : List Char) : List Char :=
  match name.reverse.findIdx? (fun c => c = '.') with
  | none => name
  | some k =>
    let i := name.length - 1 - k
    if (name.take i).all (fun c => c = '.') then name else name.take i

/-- Python `os.path.splitext(os.path.basename(src))[0]`, the source-name root
derived from a path in `prep_raster`'s list branch. -/
def path_stem (p : String) : String :=
  ⟨splitext_root (basename_chars p.data)⟩

/-- A non-list argument to `prep_raster`: an already-canonical
`RasterSource`, a path string (or `os.PathLike`), or an object no
adapter recognises. -/
inductive RastAtom where
  | source (s : RSource)
  | path (p : String)
  | other (tag : String)
  deriving Repr, DecidableEq

/-- An argument to `prep_raster`: Python `None`, a single non-list
input, or a list/tuple of non-list inputs. -/
inductive RastInput where
  | null
  | atom (a : RastAtom)
  | listOf (xs : List RastAtom)
  deriving Repr, DecidableEq

/-- The observable behaviour of the backend raster libraries
(`prep_raster_gdal` / `prep_raster_rasterio` / `prep_raster_xarray`,
which differ only in which handles they claim): for a path the backend
reports the dataset's band count, or `none` when no installed backend
can open it.  Sub-dataset expansion (multi-variable containers) is an
environment capability not exercised by the claims and not modelled. -/
structure RasterEnv where
  bands : String → Option Nat

/-- The backend loader body (`exact_extract.py` lines 41-67): opening a
claimed path produces one `RasterSource` per band, named by
`make_raster_names(name_root, band_count)`. -/
def load_bands (env : RasterEnv) (p : String) (root : Option String) :
    Option (List RSource) :=
  match env.bands p with
  | some n => some ((List.range n).map
      (fun i => ⟨(make_raster_names root n).getD i "", none⟩))
  | none => none

/-- Model of `prep_raster` (`exact_extract.py` lines 120-144) on a non-list
input: canonical sources pass through as singletons; a path is offered
to the backend loaders in order (`if sources:` makes an empty loader
result falsy, so a zero-band dataset also falls through); anything
unclaimed raises `Exception("Unhandled raster datatype")`. -/
def prep_raster_atom (env : RasterEnv) :
    RastAtom → Option String → Except String (List RSource)
  | .source s, _ => .ok [s]
  | .path p, root =>
    match load_bands env p root with
    | some srcs =>
      if srcs.isEmpty then .error "Unhandled raster datatype" else .ok srcs
    | none => .error "Unhandled raster datatype"
  | .other _, _ => .error "Unhandled raster datatype"

/-- Is this element a path (`isinstance(src, (str, os.PathLike))`)? -/
def is_path_atom : RastAtom → Bool
  | .path _ => true
  | _ => false

/-- Model of `prep_raster` (`exact_extract.py` lines 120-144).  `None` maps to
the absent-raster marker (`[None]` in Python, modelled as the empty
source list); for a list, when *all* elements are paths each element is
prepared with its name root derived from its file name
(`os.path.splitext(os.path.basename(src))[0]`), otherwise every element
is prepared with no name root; the per-element results are
concatenated. -/
def prep_raster (env : RasterEnv) :
    RastInput → Option String → Except String (List RSource)
  | .null, _ => .ok []
  | .atom a, root => prep_raster_atom env a root
  | .listOf xs, _ =>
    if xs.all is_path_atom then
      (xs.mapM (fun a => match a with
        | RastAtom.path p => prep_raster_atom env (.path p) (some (path_stem p))
        | a => prep_raster_atom env a none)).map List.flatten
    else
      (xs.mapM (fun a => prep_raster_atom env a none)).map List.flatten

/-- An inline GeoJSON-like mapping: all the orchestration layer inspects
is whether it carries a `"geometry"` key. -/
structure JsonObj where
  hasGeometry : Bool
  tag : String
  deriving Repr, DecidableEq

/-- An argument to `prep_vec`. -/
inductive VecInput where
  | featureSource (tag : String)
  | jsonList (xs : List JsonObj)
  | jsonDict (o : JsonObj)
  | path (p : String)
  | other (tag : String)
  deriving Repr, DecidableEq

/-- The observable behaviour of the vector backends: for a path, the
number of layers of the dataset a backend opens, or `none` when no
installed backend claims it. -/
structure VectorEnv where
  layers : String → Option Nat

/-- The feature source produced by `prep_vec`. -/
inductive FeatSource where
  | passthrough (tag : String)
  | json (xs : List JsonObj)
  | gdal (p : String)
  deriving Repr, DecidableEq

/-- Model of `prep_vec` (`exact_extract.py` lines 147-198): canonical sources
pass through; a non-empty list whose first element has a `"geometry"`
key, or a single mapping with one, becomes a `JSONFeatureSource`; a path
claimed by a backend becomes a backend feature source
(`GDALFeatureSource` refuses a multi-layer dataset, `feature.py` lines
60-63); everything else raises
`Exception("Unhandled feature datatype")`. -/
def prep_vec (env : VectorEnv) : VecInput → Except String FeatSource
  | .featureSource t => .ok (.passthrough t)
  | .jsonList xs =>
    match xs with
    | x :: rest =>
      if x.hasGeometry then .ok (.json (x :: rest))
      else .error "Unhandled feature datatype"
    | [] => .error "Unhandled feature datatype"
  | .jsonDict o =>
    if o.hasGeometry then .ok (.json [o])
    else .error "Unhandled feature datatype"
  | .path p =>
    match env.layers p with
    | some nl =>
      if nl > 1 then
        .error "Can only process a single layer; call directly with ogr.Layer object."
      else .ok (.gdal p)
    | none => .error "Unhandled feature datatype"
  | .other _ => .error "Unhandled feature datatype"

/-- Does `hay` contain `needle` as a contiguous substring? -/
def has_sub : List Char → List Char → Bool
  | hay, needle =>
    match hay with
    | [] => needle.isEmpty
    | _ :: t => needle.isPrefixOf hay || has_sub t needle

/-- C8 counterexample: two *different* unrecognized raster inputs
produce the *same* fixed error message `"Unhandled raster datatype"`,
which does not contain the offending value; likewise `prep_vec` with
`"Unhandled feature datatype"`.  The message therefore cannot name the
offending input value, contrary to the claim. -/
theorem prep_raster_error_does_not_name_value :
    prep_raster ⟨fun _ => none⟩ (.atom (.other "object-42")) none =
      .error "Unhandled raster datatype" ∧
    prep_raster ⟨fun _ => none⟩ (.atom (.other "object-43")) none =
      .error "Unhandled raster datatype" ∧
    has_sub "Unhandled raster datatype".data "object-42".data = false ∧
    prep_vec ⟨fun _ => none⟩ (.other "object-42") =
      .error "Unhandled feature datatype" ∧
    has_sub "Unhandled feature datatype".data "object-42".data = false := by
  refine ⟨rfl, rfl, by decide, rfl, by decide⟩

/-- C8 (amended): an input that no adapter recognises makes
`prep_raster` raise the fixed message `"Unhandled raster datatype"` and
`prep_vec` the fixed message `"Unhandled feature datatype"`; the hard
failure names the offending input's kind, not its value. -/
theorem prep_unrecognized_input_spec :
    (∀ (env : RasterEnv) (t : String) (root : Option String),
      prep_raster env (.atom (.other t)) root =
        .error "Unhandled raster datatype") ∧
    (∀ (env : VectorEnv) (t : String),
      prep_vec env (.other t) = .error "Unhandled feature datatype") ∧
    (∀ (env : RasterEnv) (p : String) (root : Option String),
      env.bands p = none →
      prep_raster env (.atom (.path p)) root =
        .error "Unhandled raster datatype") := by
  refine ⟨fun _ _ _ => rfl, fun _ _ => rfl, fun env p root h => ?_⟩
  simp [prep_raster, prep_raster_atom, load_bands, h]

/-- Witness for C8 (amended): the unclaimed-path clause at a concrete
environment. -/
theorem prep_unrecognized_input_spec_witness :
    prep_raster ⟨fun _ => none⟩ (.atom (.path "x.bin")) none =
      .error "Unhandled raster datatype" := by
  exact prep_unrecognized_input_spec.2.2 ⟨fun _ => none⟩ "x.bin" none rfl

theorem make_raster_names_length (root : Option String) (n : Nat)
    (h : 1 ≤ n) : (make_raster_names root n).length = n := by
  by_cases hr : root.getD "" = "" <;> by_cases hn : n > 1 <;>
    simp [make_raster_names, hr, hn] <;> omega

theorem map_range_getD (l : List String) (n : Nat) (h : l.length = n) :
    (List.range n).map (fun i => l.getD i "") = l := by
  subst h
  apply List.ext_getElem
  · simp
  · intro i h1 h2
    simp [List.getD_eq_getElem?_getD, List.getElem?_eq_getElem h2]

theorem mapM_ok_map {α β : Type} (f : α → Except String β) (g : α → β)
    (xs : List α) (h : ∀ a ∈ xs, f a = .ok (g a)) :
    xs.mapM f = .ok (xs.map g) := by
  induction xs with
  | nil => rfl
  | cons a t ih =>
    rw [List.mapM_cons, h a (by simp)]
    rw [ih (fun a ha => h a (by simp [ha]))]
    rfl

theorem prep_raster_atom_path_ok (env : RasterEnv) (p : String)
    (root : Option String) (n : Nat) (hb : env.bands p = some n)
    (hn : 0 < n) :
    prep_raster_atom env (.path p) root =
      .ok ((List.range n).map
        (fun i => ⟨(make_raster_names root n).getD i "", none⟩)) ∧
    (((List.range n).map
        (fun i => (⟨(make_raster_names root n).getD i "", none⟩ :
          RSource))).map RSource.name) = make_raster_names root n := by
  constructor
  · simp [prep_raster_atom, load_bands, hb]
    omega
  · rw [List.map_map]
    exact map_range_getD _ n (make_raster_names_length root n hn)

/-- The sources a claimed path expands to (the bands of the opened
dataset, named by `make_raster_names`). -/
def path_atom_sources (env : RasterEnv) (root : Option String)
    (p : String) : List RSource :=
  (List.range ((env.bands p).getD 0)).map
    (fun i => ⟨(make_raster_names root ((env.bands p).getD 0)).getD i "",
      none⟩)

/-- Per-element result of `prep_raster` on an all-paths list: each path
gets the root derived from its file name. -/
def all_paths_result (env : RasterEnv) : RastAtom → List RSource
  | .path p => path_atom_sources env (some (path_stem p)) p
  | _ => []

/-- Per-element result of `prep_raster` on a mixed list: no element gets
a name root. -/
def mixed_result (env : RasterEnv) : RastAtom → List RSource
  | .source s => [s]
  | .path p => path_atom_sources env none p
  | .other _ => []

/-- The per-element source-name contribution of a mixed (not-all-paths)
list element in `prep_raster`: a canonical source keeps its own name; a
path contributes `make_raster_names` with *no* root. -/
def mixed_names (env : RasterEnv) : RastAtom → List String
  | .source s => [s.name]
  | .path p => make_raster_names none ((env.bands p).getD 0)
  | .other _ => []

theorem prep_raster_atom_path_sources (env : RasterEnv) (p : String)
    (root : Option String) (n : Nat) (hb : env.bands p = some n)
    (hn : 0 < n) :
    prep_raster_atom env (.path p) root = .ok (path_atom_sources env root p) ∧
    (path_atom_sources env root p).map RSource.name =
      make_raster_names root n := by
  have h := prep_raster_atom_path_ok env p root n hb hn
  constructor
  · rw [h.1]
    simp [path_atom_sources, hb]
  · rw [show path_atom_sources env root p = (List.range n).map
      (fun i => ⟨(make_raster_names root n).getD i "", none⟩) by
        simp [path_atom_sources, hb]]
    exact h.2

/-- C10: in `prep_raster`, a list whose elements are all path strings
prepares each element with the name root derived from its file name
(directory and extension stripped, `path_stem`), so its bands are named
`make_raster_names (some (path_stem p)) nbands`; a list with any
non-path element assigns *no* root to any element, so a single-band
path contributes the empty-string name. -/
theorem prep_raster_list_naming (env : RasterEnv) :
    (∀ ps : List String,
      (∀ p ∈ ps, ∃ n, env.bands p = some n ∧ 0 < n) →
      ∃ l, prep_raster env (.listOf (ps.map RastAtom.path)) none = .ok l ∧
        l.map RSource.name = ps.flatMap
          (fun p => make_raster_names (some (path_stem p))
            ((env.bands p).getD 0))) ∧
    (∀ xs : List RastAtom,
      (∃ a ∈ xs, is_path_atom a = false) →
      (∀ p, RastAtom.path p ∈ xs → ∃ n, env.bands p = some n ∧ 0 < n) →
      (∀ t, RastAtom.other t ∉ xs) →
      ∃ l, prep_raster env (.listOf xs) none = .ok l ∧
        l.map RSource.name = xs.flatMap (mixed_names env)) := by
  constructor
  · intro ps h
    have hall : (ps.map RastAtom.path).all is_path_atom = true := by
      simp [List.all_eq_true, is_path_atom]
    have hmapM := mapM_ok_map
      (fun a => match a with
        | RastAtom.path p => prep_raster_atom env (.path p)
            (some (path_stem p))
        | a => prep_raster_atom env a none)
      (all_paths_result env)
      (ps.map RastAtom.path)
      (by
        intro a ha
        obtain ⟨p, hp, rfl⟩ := List.mem_map.mp ha
        obtain ⟨n, hb, hn⟩ := h p hp
        exact (prep_raster_atom_path_sources env p (some (path_stem p)) n
          hb hn).1)
    have hg : prep_raster env (.listOf (ps.map RastAtom.path)) none =
        .ok (((ps.map RastAtom.path).map (all_paths_result env)).flatten) := by
      simp only [prep_raster]
      rw [if_pos hall, hmapM]
      rfl
    refine ⟨_, hg, ?_⟩
    rw [List.map_flatten, List.map_map, List.map_map]
    rw [List.flatMap]
    congr 1
    apply List.map_congr_left
    intro p hp
    obtain ⟨n, hb, hn⟩ := h p hp
    have h2 := (prep_raster_atom_path_sources env p (some (path_stem p)) n
      hb hn).2
    simp only [Function.comp, all_paths_result]
    rw [h2, hb]
    rfl
  · intro xs hmixed hpaths hother
    have hall : ¬ (xs.all is_path_atom = true) := by
      obtain ⟨a, ha, hfa⟩ := hmixed
      simp only [List.all_eq_true]
      intro hc
      rw [hc a ha] at hfa
      exact Bool.noConfusion hfa
    have hmapM := mapM_ok_map
      (fun a => prep_raster_atom env a none)
      (mixed_result env)
      xs
      (by
        intro a ha
        match a with
        | RastAtom.source s => rfl
        | RastAtom.path p =>
          obtain ⟨n, hb, hn⟩ := hpaths p ha
          exact (prep_raster_atom_path_sources env p none n hb hn).1
        | RastAtom.other t => exact absurd ha (hother t))
    have hg : prep_raster env (.listOf xs) none =
        .ok ((xs.map (mixed_result env)).flatten) := by
      simp only [prep_raster]
      rw [if_neg hall, hmapM]
      rfl
    refine ⟨_, hg, ?_⟩
    rw [List.map_flatten, List.map_map]
    rw [List.flatMap]
    congr 1
    apply List.map_congr_left
    intro a ha
    match a with
    | RastAtom.source s => rfl
    | RastAtom.path p =>
      obtain ⟨n, hb, hn⟩ := hpaths p ha
      have h2 := (prep_raster_atom_path_sources env p none n hb hn).2
      simp only [Function.comp, mixed_result, mixed_names]
      rw [h2, hb]
      rfl
    | RastAtom.other t => exact absurd ha (hother t)

/-- Witness for C10: with a backend reporting two bands for
`"dir/dem.tif"` and one band for `"w.tif"`, the all-paths list yields
sources named `dem_band_1, dem_band_2, w` (root `dem` derived from the
file name), while a mixed list containing a canonical source assigns no
root, so the single-band path contributes the empty-string name. -/
theorem prep_raster_list_naming_witness :
    (∃ l, prep_raster
        ⟨fun p => if p = "dir/dem.tif" then some 2 else some 1⟩
        (.listOf [.path "dir/dem.tif", .path "w.tif"]) none = .ok l ∧
      l.map RSource.name = ["dem_band_1", "dem_band_2", "w"]) ∧
    (∃ l, prep_raster
        ⟨fun p => if p = "dir/dem.tif" then some 2 else some 1⟩
        (.listOf [.source ⟨"s", none⟩, .path "w.tif"]) none = .ok l ∧
      l.map RSource.name = ["s", ""]) := by
  constructor
  · obtain ⟨l, h1, h2⟩ := (prep_raster_list_naming
      ⟨fun p => if p = "dir/dem.tif" then some 2 else some 1⟩).1
      ["dir/dem.tif", "w.tif"]
      (by
        intro p hp
        fin_cases hp
        · exact ⟨2, rfl, by decide⟩
        · exact ⟨1, rfl, by decide⟩)
    refine ⟨l, h1, ?_⟩
    rw [h2]
    decide
  · obtain ⟨l, h1, h2⟩ := (prep_raster_list_naming
      ⟨fun p => if p = "dir/dem.tif" then some 2 else some 1⟩).2
      [.source ⟨"s", none⟩, .path "w.tif"]
      ⟨.source ⟨"s", none⟩, by decide, rfl⟩
      (by
        intro p hp
        simp only [List.mem_cons, List.not_mem_nil, or_false] at hp
        rcases hp with h | h
        · exact RastAtom.noConfusion h
        · have hp' : p = "w.tif" := by injection h
          subst hp'
          exact ⟨1, rfl, by decide⟩)
      (by
        intro t ht
        simp only [List.mem_cons, List.not_mem_nil, or_false] at ht
        rcases ht with h | h
        · exact RastAtom.noConfusion h
        · exact RastAtom.noConfusion h)
    refine ⟨l, h1, ?_⟩
    rw [h2]
    decide

/-- Modelled from the spec: the weighted statistic keywords known to the
external engine (`prepare_operations` and the stat registry live in the
native `_exactextract` module, which is not part of the reviewed Python
sources).  A weighted statistic consumes the weight raster. -/
def weighted_stat_names : List String :=
  ["weighted_frac", "weighted_mean", "weighted_stdev", "weighted_sum",
   "weighted_variance"]

/-- Modelled from the spec: the unweighted statistic keywords known to
the external engine. -/
def unweighted_stat_names : List String :=
  ["cell_id", "center_x", "center_y", "coefficient_of_variation", "count",
   "coverage", "frac", "majority", "max", "max_center_x", "max_center_y",
   "mean", "median", "min", "min_center_x", "min_center_y", "minority",
   "mode", "quantile", "stdev", "sum", "unique", "values", "variance",
   "variety", "weights"]

/-- Is this stat keyword a weighted statistic? -/
def is_weighted_stat (s : String) : Bool := decide (s ∈ weighted_stat_names)

/-- Is this stat keyword known to the engine at all? -/
def is_valid_stat (s : String) : Bool :=
  decide (s ∈ unweighted_stat_names) || decide (s ∈ weighted_stat_names)

/-- Modelled from the spec: `Operation.requires_variance()` of the
native module — the variance-family statistics, which need a second
pass (the docstring of `exact_extract` cites `"variance"` and `"std"`
as examples). -/
def requires_variance (op : Op) : Bool :=
  decide (op.stat ∈ ["variance", "stdev", "coefficient_of_variation",
    "weighted_stdev", "weighted_variance"])

/-- Modelled from the spec: the value/weight expansion rule of the
operation builder (§4.2) — equal lengths are zipped positionally, a
length-1 side is recycled against every element of the other, and any
other combination of non-empty lists is a construction error.  An empty
weight list (Python represents absent weights as `[None]`) pairs every
value source with no weight. -/
def source_pairs (vs ws : List RSource) :
    Except String (List (RSource × Option RSource)) :=
  match vs, ws with
  | vs, [] => .ok (vs.map (fun v => (v, none)))
  | [v], ws => .ok (ws.map (fun w => (v, some w)))
  | vs, [w] => .ok (vs.map (fun v => (v, some w)))
  | vs, ws =>
    if vs.length = ws.length then
      .ok ((vs.zip ws).map (fun p => (p.1, some p.2)))
    else
      .error "Value and weight rasters must have the same number of sources"

/-- Modelled from the spec: the field-naming rule of the operation
builder (§4.2) — with a single (value, weight) pair the bare stat name;
otherwise the value source's name is prepended, and for a weighted stat
the weight source's name as well (observable in the package's tests as
e.g. `a_w1_weighted_mean`). -/
def op_field_name (npairs : Nat) (stat : String) (v : RSource)
    (w : Option RSource) : String :=
  if npairs ≤ 1 then stat
  else
    match w, is_weighted_stat stat with
    | some wsrc, true => v.name ++ "_" ++ wsrc.name ++ "_" ++ stat
    | _, _ => v.name ++ "_" ++ stat

/-- One built-in operation synthesized for a stat and a (value, weight)
pair. -/
def mk_builtin_op (npairs : Nat) (stat : String)
    (p : RSource × Option RSource) : Op :=
  ⟨stat, op_field_name npairs stat p.1 p.2, p.1, p.2, is_weighted_stat stat⟩

/-- Modelled from the spec: the per-stat expansion — an unknown stat
keyword is a construction error, and a weighted stat paired with no
weight raster raises the distinguished `"No weights provided"` error
(§4.2, and observable through `test_error_no_weights`). -/
def ops_for_stat (pairs : List (RSource × Option RSource)) (stat : String) :
    Except String (List Op) :=
  if ! is_valid_stat stat then .error ("Unrecognized stat: " ++ stat)
  else pairs.mapM (fun p =>
    if is_weighted_stat stat && p.2.isNone then .error "No weights provided"
    else .ok (mk_builtin_op pairs.length stat p))

/-- Modelled from the spec: `prepare_operations(stats, values, weights)`
of the native module — expands every requested stat over the
value/weight pairs, in stat-major order. -/
def prepare_operations (stats : List String) (vs ws : List RSource) :
    Except String (List Op) := do
  let pairs ← source_pairs vs ws
  let opss ← stats.mapM (ops_for_stat pairs)
  return opss.flatten

/-- One element of the `stats` argument of `prep_ops`: a stat keyword, a
Python callable (of which the builder observes only
`__code__.co_argcount` and `__name__`), or an already-built
`Operation`. -/
inductive StatReq where
  | named (stat : String)
  | callable (argcount : Nat) (fname : String)
  | operation (op : Op)
  deriving Repr, DecidableEq

/-- Left-to-right, non-overlapping replacement of every occurrence of
`pat` (non-empty) by `rep`, the semantics of Python's `str.replace`.
The `fuel` argument (instantiated to more than the subject's length)
only makes the recursion structural; it is never exhausted. -/
def replace_from (pat rep : List Char) : Nat → List Char → List Char
  | 0, s => s
  | _ + 1, [] => []
  | fuel + 1, c :: rest =>
    if pat.isPrefixOf (c :: rest) then
      rep ++ replace_from pat rep fuel (rest.drop (pat.length - 1))
    else
      c :: replace_from pat rep fuel rest

/-- Python `s.replace(pat, rep)` for a non-empty pattern (the builder
only substitutes the non-empty dummy stat names). -/
def py_replace (s pat rep : String) : String :=
  if pat.data.isEmpty then s
  else ⟨replace_from pat.data rep.data (s.data.length + 1) s.data⟩

/-- Model of `prep_ops` (`exact_extract.py`, lines 201-266), on an explicit
request list (the singleton normalisation of line 202-203 is the
caller's concern) and without the `add_unique` secondary synthesis
(`add_unique=False`, its default, skips lines 251-264 entirely): a stat
keyword goes through `prepare_operations`; a callable is classified by
its declared argument count — 3 arguments use the dummy stat
`weighted_sum`, 2 use `count`, anything else raises
`"Summary operation {name} must take 2 or 3 arguments"` — then the
dummy operations are rebuilt as Python-callback operations with the
dummy stat name replaced by the function's own name, mapping the
engine's `"No weights provided"` error to
`"No weights provided but {name} expects 3 arguments"`; an existing
`Operation` is appended as-is. -/
def prep_ops (stats : List StatReq) (vs ws : List RSource) :
    Except String (List Op) :=
  match stats with
  | [] => .ok []
  | .named s :: rest => do
    let a ← prepare_operations [s] vs ws
    let r ← prep_ops rest vs ws
    return a ++ r
  | .callable nargs fname :: rest =>
    if nargs = 3 ∨ nargs = 2 then
      let dummy := if nargs = 3 then "weighted_sum" else "count"
      match prepare_operations [dummy] vs ws with
      | .error e =>
        if e = "No weights provided" then
          .error ("No weights provided but " ++ fname ++
            " expects 3 arguments")
        else .error e
      | .ok a => do
        let r ← prep_ops rest vs ws
        return (a.map (fun op =>
          { op with
            stat := fname
            name := py_replace op.name dummy fname
            weighted := nargs = 3 })) ++ r
    else
      .error ("Summary operation " ++ fname ++ " must take 2 or 3 arguments")
  | .operation op :: rest => do
    let r ← prep_ops rest vs ws
    return op :: r

/-- The `strategy == "raster-parallel"` validation loop of
`exact_extract` (`exact_extract.py`, lines 465-476), which runs *before*
the processor is constructed and before any feature is processed: the
first operation that is weighted raises a `ValueError`, then the first
operation requiring variance raises a `ValueError`. -/
def raster_parallel_check : List Op → Except String Unit
  | [] => .ok ()
  | op :: rest =>
    if op.weighted then
      .error "Weighted operations are not supported with strategy='raster-parallel'. Use strategy='feature-sequential' or strategy='raster-sequential' instead."
    else if requires_variance op then
      .error "Variance operations are not supported with strategy='raster-parallel'. Use strategy='feature-sequential' or strategy='raster-sequential' instead."
    else raster_parallel_check rest

/-- The strategy gate of `exact_extract`: the validation loop only
guards `strategy == "raster-parallel"`. -/
def strategy_check (strategy : String) (ops : List Op) :
    Except String Unit :=
  if strategy = "raster-parallel" then raster_parallel_check ops
  else .ok ()

/-- C7: under `strategy='raster-parallel'`, a prepared operation list
containing any weighted operation or any variance-family operation makes
the validation loop (which runs before the processor is created and
before any feature is processed) raise a `ValueError`; a list of only
unweighted, non-variance operations passes, and no other strategy is
gated. -/
theorem raster_parallel_strategy_spec (ops : List Op) :
    ((∃ op ∈ ops, op.weighted = true ∨ requires_variance op = true) →
      ∃ e, strategy_check "raster-parallel" ops = .error e) ∧
    ((∀ op ∈ ops, op.weighted = false ∧ requires_variance op = false) →
      strategy_check "raster-parallel" ops = .ok ()) ∧
    (∀ strategy, strategy ≠ "raster-parallel" →
      strategy_check strategy ops = .ok ()) := by
  refine ⟨?_, ?_, ?_⟩
  · intro hex
    simp only [strategy_check, if_pos rfl]
    induction ops with
    | nil => simp at hex
    | cons op rest ih =>
      simp only [raster_parallel_check]
      by_cases h1 : op.weighted = true
      · simp [h1]
      · have h1' : op.weighted = false := by
          cases hb : op.weighted
          · rfl
          · exact absurd hb h1
        by_cases h2 : requires_variance op = true
        · simp [h1', h2]
        · have h2' : requires_variance op = false := by
            cases hb : requires_variance op
            · rfl
            · exact absurd hb h2
          rw [h1', h2']
          simp only [Bool.false_eq_true, if_false]
          apply ih
          obtain ⟨o, ho, hw⟩ := hex
          rcases List.mem_cons.mp ho with rfl | ho'
          · rcases hw with hw | hw
            · exact absurd hw h1
            · exact absurd hw h2
          · exact ⟨o, ho', hw⟩
  · intro hall
    simp only [strategy_check, if_pos rfl]
    induction ops with
    | nil => rfl
    | cons op rest ih =>
      have hop := hall op (by simp)
      simp only [raster_parallel_check, hop.1, hop.2]
      simp only [Bool.false_eq_true, if_false]
      exact ih (fun o ho => hall o (by simp [ho]))
  · intro strategy hs
    simp [strategy_check, hs]

/-- Witness for C7: a single weighted-mean operation is rejected under
`raster-parallel`, a single unweighted count passes, and
`feature-sequential` is never gated. -/
theorem raster_parallel_strategy_spec_witness :
    (∃ e, strategy_check "raster-parallel"
      [⟨"weighted_mean", "weighted_mean", ⟨"a", none⟩, some ⟨"w", none⟩,
        true⟩] = .error e) ∧
    strategy_check "raster-parallel"
      [⟨"count", "count", ⟨"a", none⟩, none, false⟩] = .ok () ∧
    strategy_check "feature-sequential"
      [⟨"variance", "variance", ⟨"a", none⟩, none, false⟩] = .ok () := by
  refine ⟨?_, ?_, ?_⟩
  · exact (raster_parallel_strategy_spec _).1
      ⟨⟨"weighted_mean", "weighted_mean", ⟨"a", none⟩, some ⟨"w", none⟩,
        true⟩, by simp, Or.inl rfl⟩
  · exact (raster_parallel_strategy_spec _).2.1
      (by intro op hop; simp at hop; subst hop; exact ⟨rfl, by decide⟩)
  · exact (raster_parallel_strategy_spec _).2.2 "feature-sequential"
      (by decide)

theorem source_pairs_cases (vs ws : List RSource)
    (pairs : List (RSource × Option RSource))
    (h : source_pairs vs ws = .ok pairs) :
    (ws = [] ∧ pairs = vs.map (fun v => (v, none))) ∨
    (∃ v, vs = [v] ∧ ws ≠ [] ∧ pairs = ws.map (fun w => (v, some w))) ∨
    (∃ w, ws = [w] ∧ vs.length ≠ 1 ∧
      pairs = vs.map (fun v => (v, some w))) ∨
    (vs.length = ws.length ∧ 2 ≤ vs.length ∧ 2 ≤ ws.length ∧
      pairs = (vs.zip ws).map (fun p => (p.1, some p.2))) := by
  match vs, ws with
  | vs, [] =>
    left
    simp only [source_pairs] at h
    exact ⟨rfl, by injection h with h; exact h.symm⟩
  | [v], w :: ws' =>
    right; left
    refine ⟨v, rfl, by simp, ?_⟩
    simp only [source_pairs] at h
    injection h with h
    exact h.symm
  | [], [w] =>
    right; right; left
    refine ⟨w, rfl, by simp, ?_⟩
    simp only [source_pairs] at h
    injection h with h
    exact h.symm
  | v1 :: v2 :: vs'', [w] =>
    right; right; left
    refine ⟨w, rfl, by simp, ?_⟩
    simp only [source_pairs] at h
    injection h with h
    exact h.symm
  | [], w1 :: w2 :: ws'' =>
    simp only [source_pairs] at h
    rw [if_neg (by simp)] at h
    exact Except.noConfusion h
  | v1 :: v2 :: vs'', w1 :: w2 :: ws'' =>
    right; right; right
    simp only [source_pairs] at h
    by_cases hlen : (v1 :: v2 :: vs'').length = (w1 :: w2 :: ws'').length
    · rw [if_pos hlen] at h
      injection h with h
      exact ⟨hlen, by simp, by simp, h.symm⟩
    · rw [if_neg hlen] at h
      exact Except.noConfusion h

theorem source_pairs_all_some (vs ws : List RSource)
    (pairs : List (RSource × Option RSource)) (hws : ws ≠ [])
    (h : source_pairs vs ws = .ok pairs) :
    ∀ p ∈ pairs, p.2.isSome := by
  rcases source_pairs_cases vs ws pairs h with
    ⟨h1, _⟩ | ⟨v, _, _, h2⟩ | ⟨w, _, _, h2⟩ | ⟨_, _, _, h2⟩
  · exact absurd h1 hws
  all_goals
    subst h2
    intro p hp
    obtain ⟨x, _, rfl⟩ := List.mem_map.mp hp
    rfl

theorem source_pairs_all_none (vs ws : List RSource)
    (pairs : List (RSource × Option RSource)) (hws : ws = [])
    (h : source_pairs vs ws = .ok pairs) :
    pairs = vs.map (fun v => (v, none)) := by
  subst hws
  rcases source_pairs_cases vs [] pairs h with
    ⟨_, h1⟩ | ⟨v, _, hne, _⟩ | ⟨w, hw, _, _⟩ | ⟨_, _, hge, _⟩
  · exact h1
  · exact absurd rfl hne
  · exact List.noConfusion hw
  · simp at hge

/-- Under the zip-or-recycle rule the pair list has `max` length. -/
theorem source_pairs_length (vs ws : List RSource)
    (pairs : List (RSource × Option RSource))
    (hrule : vs.length = ws.length ∨ (vs.length = 1 ∧ 1 < ws.length) ∨
      (ws.length = 1 ∧ 1 < vs.length))
    (h : source_pairs vs ws = .ok pairs) :
    pairs.length = max vs.length ws.length := by
  rcases source_pairs_cases vs ws pairs h with
    ⟨h1, h2⟩ | ⟨v, hv, hne, h2⟩ | ⟨w, hw, hne, h2⟩ | ⟨hlen, _, _, h2⟩
  · subst h1; subst h2; simp
  · subst hv; subst h2
    simp only [List.length_map, List.length_cons, List.length_nil]
    cases ws with
    | nil => exact absurd rfl hne
    | cons a t => simp [Nat.max_eq_right, Nat.le_add_left]
  · subst hw; subst h2
    simp only [List.length_map, List.length_cons, List.length_nil]
    rcases hrule with h3 | ⟨h3, h4⟩ | ⟨h3, h4⟩
    · simp at h3; omega
    · simp at h4
    · omega
  · subst h2
    simp [List.length_zip, hlen]

/-- When the value side is at least as long as the weight side, the
pair list's value components are exactly the value sources. -/
theorem source_pairs_fst (vs ws : List RSource)
    (pairs : List (RSource × Option RSource))
    (hle : ws.length ≤ vs.length)
    (h : source_pairs vs ws = .ok pairs) :
    pairs.map Prod.fst = vs := by
  rcases source_pairs_cases vs ws pairs h with
    ⟨h1, h2⟩ | ⟨v, hv, hne, h2⟩ | ⟨w, hw, hne, h2⟩ | ⟨hlen, _, _, h2⟩
  · subst h2
    rw [List.map_map]
    exact List.map_id vs
  · subst hv; subst h2
    cases ws with
    | nil => exact absurd rfl hne
    | cons a t =>
      simp only [List.length_cons, List.length_singleton] at hle
      have : t = [] := by
        cases t with
        | nil => rfl
        | cons b t' => simp at hle
      subst this
      simp
  · subst h2
    rw [List.map_map]
    exact List.map_id vs
  · subst h2
    rw [List.map_map]
    exact List.map_fst_zip vs ws (le_of_eq hlen)

theorem source_pairs_fst_mem (vs ws : List RSource)
    (pairs : List (RSource × Option RSource))
    (h : source_pairs vs ws = .ok pairs) :
    ∀ p ∈ pairs, p.1 ∈ vs := by
  rcases source_pairs_cases vs ws pairs h with
    ⟨_, h2⟩ | ⟨v, hv, _, h2⟩ | ⟨w, _, _, h2⟩ | ⟨_, _, _, h2⟩ <;>
    subst h2 <;> intro p hp <;> obtain ⟨x, hx, rfl⟩ := List.mem_map.mp hp
  · exact hx
  · subst hv; simp
  · exact hx
  · exact (List.of_mem_zip hx).1

theorem source_pairs_snd_mem (vs ws : List RSource)
    (pairs : List (RSource × Option RSource))
    (h : source_pairs vs ws = .ok pairs) :
    ∀ p ∈ pairs, ∀ w, p.2 = some w → w ∈ ws := by
  rcases source_pairs_cases vs ws pairs h with
    ⟨_, h2⟩ | ⟨v, hv, _, h2⟩ | ⟨w0, hw, _, h2⟩ | ⟨_, _, _, h2⟩ <;>
    subst h2 <;> intro p hp w hw' <;>
    obtain ⟨x, hx, rfl⟩ := List.mem_map.mp hp <;> simp at hw'
  · subst hw'; exact hx
  · subst hw; subst hw'; simp
  · subst hw'; exact (List.of_mem_zip hx).2

theorem ops_for_stat_ok (pairs : List (RSource × Option RSource))
    (s : String) (hv : is_valid_stat s = true)
    (hw : is_weighted_stat s = true → ∀ p ∈ pairs, p.2.isSome) :
    ops_for_stat pairs s = .ok (pairs.map (mk_builtin_op pairs.length s)) := by
  simp only [ops_for_stat, hv, Bool.not_true, Bool.false_eq_true, if_false]
  apply mapM_ok_map
  intro p hp
  cases hws : is_weighted_stat s with
  | false => simp [hws]
  | true =>
    have := hw hws p hp
    have h2 : p.2.isNone = false := by
      cases hp2 : p.2
      · rw [hp2] at this; simp at this
      · rfl
    simp [hws, h2]

theorem prepare_operations_named_ok (stats : List String)
    (vs ws : List RSource) (pairs : List (RSource × Option RSource))
    (hp : source_pairs vs ws = .ok pairs)
    (hvalid : ∀ s ∈ stats, is_valid_stat s = true)
    (hw : ∀ s ∈ stats, is_weighted_stat s = true → ∀ p ∈ pairs, p.2.isSome) :
    prepare_operations stats vs ws =
      .ok (stats.flatMap (fun s => pairs.map (mk_builtin_op pairs.length s))) := by
  have hm : stats.mapM (ops_for_stat pairs) =
      .ok (stats.map (fun s => pairs.map (mk_builtin_op pairs.length s))) :=
    mapM_ok_map _ _ stats
      (fun s hs => ops_for_stat_ok pairs s (hvalid s hs) (hw s hs))
  show (do
    let ps ← source_pairs vs ws
    let opss ← stats.mapM (ops_for_stat ps)
    return opss.flatten) = _
  rw [hp]
  show (do
    let opss ← stats.mapM (ops_for_stat pairs)
    return opss.flatten) = _
  rw [hm]
  show Except.ok _ = _
  rw [List.flatMap_def]

theorem prep_ops_named_eq (stats : List String) (vs ws : List RSource)
    (pairs : List (RSource × Option RSource))
    (hp : source_pairs vs ws = .ok pairs)
    (hvalid : ∀ s ∈ stats, is_valid_stat s = true)
    (hw : ∀ s ∈ stats, is_weighted_stat s = true → ∀ p ∈ pairs, p.2.isSome) :
    prep_ops (stats.map StatReq.named) vs ws =
      .ok (stats.flatMap (fun s => pairs.map (mk_builtin_op pairs.length s))) := by
  induction stats with
  | nil => rfl
  | cons s rest ih =>
    have h1 : prepare_operations [s] vs ws =
        .ok (pairs.map (mk_builtin_op pairs.length s)) := by
      rw [prepare_operations_named_ok [s] vs ws pairs hp
        (fun x hx => by rw [List.mem_singleton.mp hx]; exact hvalid s (by simp))
        (fun x hx => by rw [List.mem_singleton.mp hx]; exact hw s (by simp))]
      simp
    have h2 := ih (fun x hx => hvalid x (by simp [hx]))
      (fun x hx => hw x (by simp [hx]))
    show (do
      let a ← prepare_operations [s] vs ws
      let r ← prep_ops (rest.map StatReq.named) vs ws
      return a ++ r) = _
    rw [h1]
    show (do
      let r ← prep_ops (rest.map StatReq.named) vs ws
      return pairs.map (mk_builtin_op pairs.length s) ++ r) = _
    rw [h2]
    show Except.ok _ = _
    rw [List.flatMap_cons]

theorem ops_for_stat_no_weights (v : RSource)
    (rest : List (RSource × Option RSource)) :
    ops_for_stat ((v, none) :: rest) "weighted_sum" =
      .error "No weights provided" := by
  unfold ops_for_stat
  rw [if_neg (by decide), List.mapM_cons]
  rw [if_pos (show (is_weighted_stat "weighted_sum" &&
    ((v, none) : RSource × Option RSource).2.isNone) = true from rfl)]
  rfl

/-- C4: `prep_ops` classifies a callable stat request by its declared
positional-argument count: a 2-argument function yields only unweighted
operations (`weighted = false`), a 3-argument function (given a weight
source) yields only weighted operations (`weighted = true`), a
3-argument function with no weight source raises the distinguished
"No weights provided but ... expects 3 arguments" error, and any other
argument count raises, before any processing and regardless of the
sources, an error saying the function must take 2 or 3 arguments. -/
theorem prep_ops_callable_arity_spec (vs ws : List RSource)
    (fname : String) :
    (∀ pairs, source_pairs vs ws = .ok pairs →
      ∃ l, prep_ops [.callable 2 fname] vs ws = .ok l ∧
        l.length = pairs.length ∧ ∀ op ∈ l, op.weighted = false) ∧
    (ws ≠ [] → ∀ pairs, source_pairs vs ws = .ok pairs →
      ∃ l, prep_ops [.callable 3 fname] vs ws = .ok l ∧
        l.length = pairs.length ∧ ∀ op ∈ l, op.weighted = true) ∧
    (ws = [] → vs ≠ [] →
      prep_ops [.callable 3 fname] vs ws =
        .error ("No weights provided but " ++ fname ++
          " expects 3 arguments")) ∧
    (∀ nargs, nargs ≠ 2 → nargs ≠ 3 →
      prep_ops [.callable nargs fname] vs ws =
        .error ("Summary operation " ++ fname ++
          " must take 2 or 3 arguments")) := by
  refine ⟨?_, ?_, ?_, ?_⟩
  · intro pairs hp
    have hprep : prepare_operations ["count"] vs ws =
        .ok (pairs.map (mk_builtin_op pairs.length "count")) := by
      have h := prepare_operations_named_ok ["count"] vs ws pairs hp
        (by intro s hs; rw [List.mem_singleton.mp hs]; decide)
        (by
          intro s hs
          rw [List.mem_singleton.mp hs]
          intro hws
          exact absurd hws (by decide))
      simpa using h
    refine ⟨(pairs.map (mk_builtin_op pairs.length "count")).map
      (fun op => { op with
        stat := fname
        name := py_replace op.name "count" fname
        weighted := false }) ++ [], ?_, by simp, ?_⟩
    · simp only [prep_ops]
      norm_num
      rw [hprep]
      show Except.ok _ = _
      rw [List.map_map]
    · intro op hop
      rw [List.append_nil] at hop
      obtain ⟨o, _, rfl⟩ := List.mem_map.mp hop
      rfl
  · intro hws pairs hp
    have hsome := source_pairs_all_some vs ws pairs hws hp
    have hprep : prepare_operations ["weighted_sum"] vs ws =
        .ok (pairs.map (mk_builtin_op pairs.length "weighted_sum")) := by
      have h := prepare_operations_named_ok ["weighted_sum"] vs ws pairs hp
        (by intro s hs; rw [List.mem_singleton.mp hs]; decide)
        (by
          intro s hs
          rw [List.mem_singleton.mp hs]
          intro _
          exact hsome)
      simpa using h
    refine ⟨(pairs.map (mk_builtin_op pairs.length "weighted_sum")).map
      (fun op => { op with
        stat := fname
        name := py_replace op.name "weighted_sum" fname
        weighted := true }) ++ [], ?_, by simp, ?_⟩
    · simp only [prep_ops]
      norm_num
      rw [hprep]
      show Except.ok _ = _
      rw [List.map_map]
    · intro op hop
      rw [List.append_nil] at hop
      obtain ⟨o, _, rfl⟩ := List.mem_map.mp hop
      rfl
  · intro hws hvs
    subst hws
    cases vs with
    | nil => exact absurd rfl hvs
    | cons v vs' =>
      have hpairs : source_pairs (v :: vs') [] =
          .ok ((v, none) :: vs'.map (fun x => (x, none))) := by
        simp [source_pairs]
      have hprep : prepare_operations ["weighted_sum"] (v :: vs') [] =
          .error "No weights provided" := by
        show (do
          let ps ← source_pairs (v :: vs') []
          let opss ← ["weighted_sum"].mapM (ops_for_stat ps)
          return opss.flatten) = _
        rw [hpairs]
        show (do
          let opss ← ["weighted_sum"].mapM
            (ops_for_stat ((v, none) :: vs'.map (fun x => (x, none))))
          return opss.flatten) = _
        rw [List.mapM_cons, ops_for_stat_no_weights]
        rfl
      simp only [prep_ops]
      norm_num
      rw [hprep]
      simp
  · intro nargs h2 h3
    simp only [prep_ops]
    rw [if_neg (by
      intro hc
      rcases hc with hc | hc
      · exact h3 hc
      · exact h2 hc)]

/-- Witness for C4 at one value source and one weight source, callable
name `f`: arity 2 gives one unweighted operation, arity 3 one weighted
operation, arity 3 with no weights the distinguished error, arity 4 the
arity error. -/
theorem prep_ops_callable_arity_spec_witness :
    (∃ l, prep_ops [.callable 2 "f"] [⟨"a", none⟩] [⟨"w", none⟩] =
      .ok l ∧ l.length = 1 ∧ ∀ op ∈ l, op.weighted = false) ∧
    (∃ l, prep_ops [.callable 3 "f"] [⟨"a", none⟩] [⟨"w", none⟩] =
      .ok l ∧ l.length = 1 ∧ ∀ op ∈ l, op.weighted = true) ∧
    prep_ops [.callable 3 "f"] [⟨"a", none⟩] [] =
      .error "No weights provided but f expects 3 arguments" ∧
    prep_ops [.callable 4 "f"] [⟨"a", none⟩] [⟨"w", none⟩] =
      .error "Summary operation f must take 2 or 3 arguments" := by
  have h := prep_ops_callable_arity_spec [⟨"a", none⟩] [⟨"w", none⟩] "f"
  have h0 := prep_ops_callable_arity_spec [⟨"a", none⟩] [] "f"
  refine ⟨?_, ?_, ?_, ?_⟩
  · obtain ⟨l, ha, hb, hc⟩ := h.1 [(⟨"a", none⟩, some ⟨"w", none⟩)] rfl
    exact ⟨l, ha, hb, hc⟩
  · obtain ⟨l, ha, hb, hc⟩ := h.2.1 (by simp)
      [(⟨"a", none⟩, some ⟨"w", none⟩)] rfl
    exact ⟨l, ha, hb, hc⟩
  · exact h0.2.2.1 rfl (by simp)
  · exact h.2.2.2 4 (by decide) (by decide)

/-- C1 counterexample: with one value source, two weight sources and the
single stat request `"count"` (lengths that satisfy the zip-or-recycle
rule by recycling the length-1 value side), `prep_ops` returns *two*
operations, not `len(value_sources) * len(stat_requests) = 1`, and their
field names collide (`a_count` twice), so they are not pairwise
distinct. -/
theorem prep_ops_recycled_values_counterexample :
    ∃ l, prep_ops [.named "count"] [⟨"a", none⟩]
        [⟨"w1", none⟩, ⟨"w2", none⟩] = .ok l ∧
      l.map Op.name = ["a_count", "a_count"] ∧
      l.length ≠ 1 * 1 ∧
      ¬ (l.map Op.name).Nodup := by
  refine ⟨_, rfl, rfl, by decide, by decide⟩

/-- Python `name.contains('_') == False`: the source name is free of the
separator used by the field-naming rule. -/
def no_underscore (s : String) : Bool := ! s.data.contains '_'

theorem split_at_sep (a : List Char) :
    ∀ (c b d : List Char), a.contains '_' = false →
    c.contains '_' = false → a ++ '_' :: b = c ++ '_' :: d →
    a = c ∧ b = d := by
  induction a with
  | nil =>
    intro c b d _ hc h
    cases c with
    | nil => simpa using h
    | cons e c' =>
      rw [List.nil_append, List.cons_append] at h
      injection h with h1 h2
      rw [← h1] at hc
      simp at hc
  | cons x a' ih =>
    intro c b d ha hc h
    cases c with
    | nil =>
      rw [List.nil_append, List.cons_append] at h
      injection h with h1 h2
      rw [h1] at ha
      simp at ha
    | cons e c' =>
      rw [List.cons_append, List.cons_append] at h
      injection h with h1 h2
      subst h1
      have ha' : a'.contains '_' = false := by
        simp only [List.contains_cons] at ha
        exact (Bool.or_eq_false_iff.mp ha).2
      have hc' : c'.contains '_' = false := by
        simp only [List.contains_cons] at hc
        exact (Bool.or_eq_false_iff.mp hc).2
      obtain ⟨hac, hbd⟩ := ih c' b d ha' hc' h2
      exact ⟨by rw [hac], hbd⟩

/-- No unweighted stat keyword decomposes as
`weight-name ++ "_" ++ weighted-stat-keyword`: a finite check over the
stat catalogue. -/
theorem no_tail_collision :
    ∀ s1 ∈ unweighted_stat_names, ∀ s2 ∈ weighted_stat_names,
      ¬ (('_' :: s2.data) <:+ s1.data) := by
  decide

theorem data_append_sep (v s : String) :
    (v ++ "_" ++ s).data = v.data ++ '_' :: s.data := by
  rw [String.data_append, String.data_append]
  simp

theorem op_field_name_unw_data (n : Nat) (s : String) (v : RSource)
    (w : Option RSource) (hn : ¬ n ≤ 1)
    (hw : is_weighted_stat s = false ∨ w = none) :
    (op_field_name n s v w).data = v.name.data ++ '_' :: s.data := by
  have hx : op_field_name n s v w = v.name ++ "_" ++ s := by
    unfold op_field_name
    rw [if_neg hn]
    rcases hw with hw | hw
    · cases w with
      | none => rfl
      | some u =>
        simp only [hw]
    · subst hw
      rfl
  rw [hx, data_append_sep]

theorem op_field_name_w_data (n : Nat) (s : String) (v wsrc : RSource)
    (hn : ¬ n ≤ 1) (hws : is_weighted_stat s = true) :
    (op_field_name n s v (some wsrc)).data =
      v.name.data ++ '_' :: (wsrc.name.data ++ '_' :: s.data) := by
  have hx : op_field_name n s v (some wsrc) =
      v.name ++ "_" ++ wsrc.name ++ "_" ++ s := by
    unfold op_field_name
    rw [if_neg hn]
    simp only [hws]
  rw [hx]
  rw [show v.name ++ "_" ++ wsrc.name ++ "_" ++ s =
    v.name ++ "_" ++ (wsrc.name ++ "_" ++ s) by
      simp [String.append_assoc]]
  rw [data_append_sep, data_append_sep]

theorem valid_not_weighted_mem (s : String) (hv : is_valid_stat s = true)
    (hw : is_weighted_stat s = false) : s ∈ unweighted_stat_names := by
  simp only [is_valid_stat, is_weighted_stat, Bool.or_eq_true,
    decide_eq_true_eq] at hv
  simp only [is_weighted_stat, decide_eq_false_iff_not] at hw
  rcases hv with h | h
  · exact h
  · exact absurd h hw

theorem weighted_mem (s : String) (hw : is_weighted_stat s = true) :
    s ∈ weighted_stat_names := by
  simpa [is_weighted_stat, decide_eq_true_eq] using hw

/-- The core injectivity of the field-naming rule: two generated names
agree only when the stats agree, and (with more than one pair) only when
the value-source names agree — provided source names are free of the
`_` separator, the stats are valid, and the two pairs are uniformly
weighted or uniformly unweighted. -/
theorem op_field_name_inj (n : Nat) (s t : String)
    (hs : is_valid_stat s = true) (ht : is_valid_stat t = true)
    (v1 v2 : RSource) (w1 w2 : Option RSource)
    (hv1 : no_underscore v1.name = true) (hv2 : no_underscore v2.name = true)
    (hw1 : ∀ w, w1 = some w → no_underscore w.name = true)
    (hw2 : ∀ w, w2 = some w → no_underscore w.name = true)
    (huni : (w1.isSome ∧ w2.isSome) ∨ (w1 = none ∧ w2 = none))
    (heq : op_field_name n s v1 w1 = op_field_name n t v2 w2) :
    s = t ∧ (¬ n ≤ 1 → v1.name = v2.name) := by
  by_cases hn : n ≤ 1
  · refine ⟨?_, fun h => absurd hn h⟩
    unfold op_field_name at heq
    rw [if_pos hn, if_pos hn] at heq
    exact heq
  · have hdata := congrArg String.data heq
    have hv1' : v1.name.data.contains '_' = false := by
      simpa [no_underscore] using hv1
    have hv2' : v2.name.data.contains '_' = false := by
      simpa [no_underscore] using hv2
    rcases huni with ⟨hs1, hs2⟩ | ⟨hn1, hn2⟩
    · obtain ⟨u1, hu1⟩ := Option.isSome_iff_exists.mp hs1
      obtain ⟨u2, hu2⟩ := Option.isSome_iff_exists.mp hs2
      subst hu1
      subst hu2
      have hu1' : u1.name.data.contains '_' = false := by
        simpa [no_underscore] using hw1 u1 rfl
      have hu2' : u2.name.data.contains '_' = false := by
        simpa [no_underscore] using hw2 u2 rfl
      cases hws : is_weighted_stat s with
      | false =>
        cases hwt : is_weighted_stat t with
        | false =>
          rw [op_field_name_unw_data n s v1 _ hn (Or.inl hws),
            op_field_name_unw_data n t v2 _ hn (Or.inl hwt)] at hdata
          obtain ⟨h1, h2⟩ := split_at_sep _ _ _ _ hv1' hv2' hdata
          exact ⟨String.ext h2, fun _ => String.ext h1⟩
        | true =>
          rw [op_field_name_unw_data n s v1 _ hn (Or.inl hws),
            op_field_name_w_data n t v2 u2 hn hwt] at hdata
          obtain ⟨h1, h2⟩ := split_at_sep _ _ _ _ hv1' hv2' hdata
          exact absurd ⟨u2.name.data, h2.symm⟩
            (no_tail_collision s (valid_not_weighted_mem s hs hws) t
              (weighted_mem t hwt))
      | true =>
        cases hwt : is_weighted_stat t with
        | false =>
          rw [op_field_name_w_data n s v1 u1 hn hws,
            op_field_name_unw_data n t v2 _ hn (Or.inl hwt)] at hdata
          obtain ⟨h1, h2⟩ := split_at_sep _ _ _ _ hv1' hv2' hdata
          exact absurd ⟨u1.name.data, h2⟩
            (no_tail_collision t (valid_not_weighted_mem t ht hwt) s
              (weighted_mem s hws))
        | true =>
          rw [op_field_name_w_data n s v1 u1 hn hws,
            op_field_name_w_data n t v2 u2 hn hwt] at hdata
          obtain ⟨h1, h2⟩ := split_at_sep _ _ _ _ hv1' hv2' hdata
          obtain ⟨h3, h4⟩ := split_at_sep _ _ _ _ hu1' hu2' h2
          exact ⟨String.ext h4, fun _ => String.ext h1⟩
    · subst hn1
      subst hn2
      rw [op_field_name_unw_data n s v1 none hn (Or.inr rfl),
        op_field_name_unw_data n t v2 none hn (Or.inr rfl)] at hdata
      obtain ⟨h1, h2⟩ := split_at_sep _ _ _ _ hv1' hv2' hdata
      exact ⟨String.ext h2, fun _ => String.ext h1⟩

theorem source_pairs_ok (vs ws : List RSource)
    (hrule : vs.length = ws.length ∨ (vs.length = 1 ∧ 1 < ws.length) ∨
      (ws.length = 1 ∧ 1 < vs.length)) :
    ∃ pairs, source_pairs vs ws = .ok pairs := by
  match vs, ws with
  | vs, [] =>
    exact ⟨vs.map (fun v => (v, none)), by simp [source_pairs]⟩
  | [v], w :: ws' =>
    exact ⟨(w :: ws').map (fun w => (v, some w)), by simp [source_pairs]⟩
  | [], [w] =>
    exact ⟨[], by simp [source_pairs]⟩
  | v1 :: v2 :: vs'', [w] =>
    exact ⟨(v1 :: v2 :: vs'').map (fun v => (v, some w)),
      by simp [source_pairs]⟩
  | [], w1 :: w2 :: ws'' =>
    exfalso
    rcases hrule with h | ⟨h1, h2⟩ | ⟨h1, h2⟩ <;> simp_all
  | v1 :: v2 :: vs'', w1 :: w2 :: ws'' =>
    have hlen : (v1 :: v2 :: vs'').length = (w1 :: w2 :: ws'').length := by
      rcases hrule with h | ⟨h1, h2⟩ | ⟨h1, h2⟩
      · exact h
      · simp at h1
      · simp at h1
    exact ⟨((v1 :: v2 :: vs'').zip (w1 :: w2 :: ws'')).map
      (fun p => (p.1, some p.2)), by simp [source_pairs, hlen]⟩

theorem length_flatMap_const {α β : Type} (l : List α) (f : α → List β)
    (k : Nat) (h : ∀ a ∈ l, (f a).length = k) :
    (l.flatMap f).length = l.length * k := by
  induction l with
  | nil => simp
  | cons a t ih =>
    rw [List.flatMap_cons, List.length_append, h a (by simp),
      ih (fun x hx => h x (by simp [hx])), List.length_cons]
    ring

/-- C1 (amended): for every list of *valid* string stat requests and
source lists whose lengths satisfy the zip-or-recycle rule, `prep_ops`
returns exactly `max(len(value_sources), len(weight_sources)) *
len(stat_requests)` operations — which equals
`len(value_sources) * len(stat_requests)` except when the length-1
*value* side is the recycled one — and the field names of the returned
operations are pairwise distinct provided the weight list is not longer
than the value list, the stat requests are pairwise distinct, and the
value-source names are pairwise distinct, with all participating source
names free of the `_` separator used by the naming rule. -/
theorem prep_ops_spec (stats : List String) (vs ws : List RSource)
    (hrule : vs.length = ws.length ∨ (vs.length = 1 ∧ 1 < ws.length) ∨
      (ws.length = 1 ∧ 1 < vs.length))
    (hvalid : ∀ s ∈ stats, is_valid_stat s = true) :
    ∃ l, prep_ops (stats.map StatReq.named) vs ws = .ok l ∧
      l.length = max vs.length ws.length * stats.length ∧
      (ws.length ≤ vs.length → stats.Nodup →
        (vs.map RSource.name).Nodup →
        (∀ v ∈ vs, no_underscore v.name = true) →
        (∀ w ∈ ws, no_underscore w.name = true) →
        (l.map Op.name).Nodup) := by
  obtain ⟨pairs, hp⟩ := source_pairs_ok vs ws hrule
  have hWcond : ∀ s ∈ stats, is_weighted_stat s = true →
      ∀ p ∈ pairs, p.2.isSome := by
    intro s _ _
    by_cases hws0 : ws = []
    · have hvs : vs = [] := by
        rcases hrule with h | ⟨h1, h2⟩ | ⟨h1, h2⟩ <;>
          rw [hws0] at * <;> simp_all
      subst hvs
      rw [hws0] at hp
      have hpairs0 := source_pairs_all_none [] [] pairs rfl hp
      rw [hpairs0]
      intro p hp'
      simp at hp'
    · exact source_pairs_all_some vs ws pairs hws0 hp
  have hrun := prep_ops_named_eq stats vs ws pairs hp hvalid hWcond
  refine ⟨_, hrun, ?_, ?_⟩
  · have hlen := source_pairs_length vs ws pairs hrule hp
    rw [length_flatMap_const _ _ pairs.length (fun s _ => by simp)]
    rw [hlen, Nat.mul_comm]
  · intro hle hnds hndv hvus hwus
    have hfst := source_pairs_fst vs ws pairs hle hp
    have hfstmem := source_pairs_fst_mem vs ws pairs hp
    have hsndmem := source_pairs_snd_mem vs ws pairs hp
    have hfstnames : (pairs.map (fun p => p.1.name)).Nodup := by
      have hmm : pairs.map (fun p => p.1.name) =
          (pairs.map Prod.fst).map RSource.name := by
        rw [List.map_map]
        rfl
      rw [hmm, hfst]
      exact hndv
    have hpnodup : pairs.Nodup := List.Nodup.of_map _ hfstnames
    have huni : ∀ p1 ∈ pairs, ∀ p2 ∈ pairs,
        (p1.2.isSome ∧ p2.2.isSome) ∨ (p1.2 = none ∧ p2.2 = none) := by
      by_cases hws0 : ws = []
      · intro p1 h1 p2 h2
        right
        have hap := source_pairs_all_none vs ws pairs hws0 hp
        rw [hap] at h1 h2
        obtain ⟨x1, _, rfl⟩ := List.mem_map.mp h1
        obtain ⟨x2, _, rfl⟩ := List.mem_map.mp h2
        exact ⟨rfl, rfl⟩
      · intro p1 h1 p2 h2
        left
        exact ⟨source_pairs_all_some vs ws pairs hws0 hp p1 h1,
          source_pairs_all_some vs ws pairs hws0 hp p2 h2⟩
    have husv : ∀ p ∈ pairs, no_underscore p.1.name = true :=
      fun p hp' => hvus p.1 (hfstmem p hp')
    have husw : ∀ p ∈ pairs, ∀ w, p.2 = some w →
        no_underscore w.name = true :=
      fun p hp' w hw => hwus w (hsndmem p hp' w hw)
    have hmapname :
        (stats.flatMap
          (fun s => pairs.map (mk_builtin_op pairs.length s))).map Op.name =
        stats.flatMap
          (fun s => pairs.map
            (fun p => op_field_name pairs.length s p.1 p.2)) := by
      rw [List.map_flatMap]
      congr 1
      funext s
      rw [List.map_map]
      rfl
    rw [hmapname]
    apply List.nodup_flatMap.mpr
    constructor
    · intro s hs
      apply List.Nodup.map_on ?_ hpnodup
      intro p1 h1 p2 h2 hname
      by_cases hn1 : pairs.length ≤ 1
      · cases pairs with
        | nil => simp at h1
        | cons p0 rest =>
          cases rest with
          | nil =>
            have e1 : p1 = p0 := by simpa using h1
            have e2 : p2 = p0 := by simpa using h2
            rw [e1, e2]
          | cons q rest' => simp at hn1
      · have hinj := op_field_name_inj pairs.length s s
          (hvalid s hs) (hvalid s hs) p1.1 p2.1 p1.2 p2.2
          (husv p1 h1) (husv p2 h2) (husw p1 h1) (husw p2 h2)
          (huni p1 h1 p2 h2) hname
        exact List.inj_on_of_nodup_map hfstnames h1 h2 (hinj.2 hn1)
    · refine List.Pairwise.imp_of_mem ?_ hnds
      intro a b ha hb hab
      intro x hxa hxb
      obtain ⟨p1, h1, rfl⟩ := List.mem_map.mp hxa
      obtain ⟨p2, h2, heq⟩ := List.mem_map.mp hxb
      have hinj := op_field_name_inj pairs.length a b
        (hvalid a ha) (hvalid b hb) p1.1 p2.1 p1.2 p2.2
        (husv p1 h1) (husv p2 h2) (husw p1 h1) (husw p2 h2)
        (huni p1 h1 p2 h2) heq.symm
      exact hab hinj.1

/-- Witness for C1 (amended): two value sources `a`, `b`, one weight
source `w`, requests `["count", "weighted_mean"]`: four operations with
pairwise-distinct field names
(`a_count, b_count, a_w_weighted_mean, b_w_weighted_mean`). -/
theorem prep_ops_spec_witness :
    ∃ l, prep_ops [.named "count", .named "weighted_mean"]
        [⟨"a", none⟩, ⟨"b", none⟩] [⟨"w", none⟩] = .ok l ∧
      l.length = 4 ∧ (l.map Op.name).Nodup := by
  have h := prep_ops_spec ["count", "weighted_mean"]
    [⟨"a", none⟩, ⟨"b", none⟩] [⟨"w", none⟩]
    (Or.inr (Or.inr ⟨rfl, by decide⟩))
    (by
      intro s hs
      rcases List.mem_cons.mp hs with rfl | hs'
      · decide
      · rw [List.mem_singleton.mp hs']
        decide)
  obtain ⟨l, h1, h2, h3⟩ := h
  refine ⟨l, h1, by simpa using h2, ?_⟩
  exact h3 (by decide) (by decide) (by decide)
    (by
      intro v hv
      rcases List.mem_cons.mp hv with rfl | hv'
      · decide
      · rw [List.mem_singleton.mp hv']
        decide)
    (by
      intro w hw
      rw [List.mem_singleton.mp hw]
      decide)

end ExactExtract
